import Mathlib

/-!
Verification development for the kvs repository (a log-structured
key/value store with a small TCP front end).

The development shallowly embeds the code of src/src/kvs.rs,
src/src/error.rs, src/src/common.rs and src/src/bin/kvs-server.rs.

Two granularities are used, each faithful to the source at its level:

* A record-level model of the store (`KvStore`): a segment file is the
  list of framed records it contains, each carrying the byte position
  and byte length the real file gives it.  The flexbuffers payload size
  of a record is an explicit parameter `encSize`; every position and
  length computation of the source (`BufWriterWithPos.pos`,
  `CommandPos`, `start_pos..writer.pos`) is reproduced exactly with
  record length `4 + encSize line` (4 bytes of little-endian u32 length
  followed by the payload, kvs.rs serialize_to_log).  Reading a record
  at a stored position returns the record written there, which is what
  flexbuffers deserialization of the bytes at that offset yields.

* A byte-level model of segment replay (`loadBytesFuel`) used for the
  corrupt-tail claims, where the length prefix, the partial reads of
  the buggy `BufReaderWithPos.read_exact` (kvs.rs:83-88, which drops
  the inner Result) and the decodability of a payload are all explicit;
  flexbuffers decoding of a payload is a parameter `decode`.

Rust panics (`unwrap`, `expect`, and the call into the stale,
non-compiling `compaction` body, see below) abort the process rather
than return an error; the model represents them with the dedicated
`KvsError.Panic` variant, which no theorem about successful runs ever
meets.
-/

/-- Log record variants, from `KvsLogLine` (kvs.rs:36-40). -/
inductive KvsLogLine where
  | Set (key value : String)
  | Rm (key : String)
deriving DecidableEq, Repr

/-- Position and length of a serialized command, from `CommandPos` (kvs.rs:42-47).
`from (gen, range)` stores `pos = range.start`, `len = range.end - range.start`. -/
structure CommandPos where
  gen : Nat
  pos : Nat
  len : Nat
deriving DecidableEq, Repr

/-- Error type, from `KvsError` (error.rs:6-26).  Variants that wrap a foreign
error carry the string its Display would produce.  The extra `Panic` variant
models Rust panics (`unwrap`/`expect`/non-compiling code paths), which abort
instead of returning; it is not a constructor of the source enum. -/
inductive KvsError where
  | Io (msg : String)
  | Serializer (msg : String)
  | Deserializer (msg : String)
  | Reader (msg : String)
  | KeyDoesNotExist
  | TryFromInt (msg : String)
  | UnexpectedCommandType
  | AddrParseError (msg : String)
  | UnknownEngineType (engType : String)
  | Panic (msg : String)
deriving DecidableEq, Repr

/-- Display output of `KvsError` (error.rs:28-46). -/
def KvsError.display : KvsError → String
  | .Io m => "IO error: " ++ m
  | .Serializer m => "Serialization error: " ++ m
  | .Reader m => "Reader error: " ++ m
  | .Deserializer m => "Deserialization error: " ++ m
  | .TryFromInt m => "Deserialization error: " ++ m
  | .KeyDoesNotExist => "Key not found"
  | .UnexpectedCommandType => "Unexpected command type"
  | .AddrParseError m => "IP Address Parse error: " ++ m
  | .UnknownEngineType t => "Unknown Engine type: " ++ t
  | .Panic m => "panic: " ++ m

/-- Compaction threshold constant (kvs.rs:18). -/
def COMPACTION_THRESHOLD : Nat := 1024 * 1024

/-- The in-memory index `BTreeMap<String, CommandPos>` (kvs.rs:29), modelled as
an association list; only lookup-level behaviour is ever used. -/
abbrev Index := List (String × CommandPos)

/-- Map lookup (`BTreeMap::get`). -/
def btLookup : Index → String → Option CommandPos
  | [], _ => none
  | (k2, c) :: rest, k => if k = k2 then some c else btLookup rest k

/-- Map insert (`BTreeMap::insert` without its returned old value; call sites
recover the old value with `btLookup` first). -/
def btInsert : Index → String → CommandPos → Index
  | [], k, c => [(k, c)]
  | (k2, c2) :: rest, k, c =>
      if k = k2 then (k, c) :: rest else (k2, c2) :: btInsert rest k c

/-- Map removal (`BTreeMap::remove` without its returned old value). -/
def btRemove : Index → String → Index
  | [], _ => []
  | (k2, c2) :: rest, k => if k = k2 then rest else (k2, c2) :: btRemove rest k

/-- A segment file at record granularity: the framed records it holds, as
(byte position of the length prefix, framed byte length, record). -/
abbrev LogFile := List (Nat × Nat × KvsLogLine)

/-- A store directory: generation number to segment-file contents.  This also
plays the role of the `readers` map (kvs.rs:25), since each reader is a handle
onto one of these files. -/
abbrev Dir := List (Nat × LogFile)

/-- Lookup of the reader/file for a generation (`readers.get_mut(&gen)`). -/
def fileLookup : Dir → Nat → Option LogFile
  | [], _ => none
  | (g, f) :: rest, gen => if gen = g then some f else fileLookup rest gen

/-- Append one framed record to the segment file of generation `gen`,
modelling a write through the active writer handle (readers of the same file
observe it after the flush in serialize_to_log). -/
def updateFile (d : Dir) (gen : Nat) (rec : Nat × Nat × KvsLogLine) : Dir :=
  d.map (fun gf => if gf.fst = gen then (gf.fst, gf.snd ++ [rec]) else gf)

/-- Deserialization of the record whose length prefix starts at byte `pos`
of the file, the effect of `seek(Start(pos)); deserialize_from_log(reader)`
(kvs.rs:200-201, 351-361) on a file whose records live at the stored
positions. -/
def readAt (f : LogFile) (pos : Nat) : Option KvsLogLine :=
  (f.find? (fun r => r.fst == pos)).map (fun r => r.snd.snd)

/-- The store, from `KvStore` (kvs.rs:21-33).  `writerPos` is
`BufWriterWithPos.pos` of the active segment.  `writerFails` is a fault flag
for the underlying file of the writer: when true, every write through the
writer returns an I/O error (and appends nothing); it models the environment,
not a field of the source struct. -/
structure KvStore where
  files : Dir
  currentGen : Nat
  writerPos : Nat
  index : Index
  uncompacted : Nat
  writerFails : Bool
deriving DecidableEq, Repr

/-- Serialization of one record to the active log, from `serialize_to_log`
(kvs.rs:340-349): writes the 4-byte little-endian u32 payload length, then the
`encSize line` payload bytes, and flushes; `writer.pos` advances by
`4 + encSize line`.  The `usize` to `u32` unwrap is taken as non-panicking
(payloads of two strings below 4 GiB).  On a failing writer the record is
treated as not written. -/
def serialize_to_log (encSize : KvsLogLine → Nat) (s : KvStore) (line : KvsLogLine) :
    Except KvsError KvStore :=
  if s.writerFails then .error (.Io "write failed")
  else
    .ok { s with
          files := updateFile s.files s.currentGen (s.writerPos, 4 + encSize line, line),
          writerPos := s.writerPos + (4 + encSize line) }

/-- Lookup of a key, from `KvStore::get` (kvs.rs:194-209): index lookup, then
`readers.get_mut(&cmd_pos.gen).expect("Cannot find log reader")` (a panic when
absent), seek to `cmd_pos.pos`, deserialize one record; a `Set` yields its
value (the record key is ignored by the source pattern `Set { key: _, value }`),
a `Rm` yields `UnexpectedCommandType`.  Deserializing at a position holding no
record is a deserialization failure. -/
def KvStore.get (s : KvStore) (key : String) : Except KvsError (Option String) :=
  match btLookup s.index key with
  | none => .ok none
  | some cmdPos =>
    match fileLookup s.files cmdPos.gen with
    | none => .error (.Panic "Cannot find log reader")
    | some f =>
      match readAt f cmdPos.pos with
      | some (KvsLogLine.Set _ value) => .ok (some value)
      | some (KvsLogLine.Rm _) => .error .UnexpectedCommandType
      | none => .error (.Deserializer "no record at position")

/-- Update of a key, from `KvStore::set` (kvs.rs:228-250): serialize the `Set`
record (propagating failure through the source question-mark operator), insert
`(current_gen, start_pos..writer.pos)` into the index, add a displaced old
record length to `uncompacted`, then `if uncompacted > COMPACTION_THRESHOLD`
call `self.compaction()`.  The compaction body (kvs.rs:276-320) reads the
fields `directory_path`, `elements`, `read_file_handle`, `write_file_handle`
and `stale_entries`, none of which `KvStore` (kvs.rs:21-33) declares, so that
call cannot compile or run; the model marks the branch with a `Panic` error,
and theorems about successful runs never enter it. -/
def KvStore.set (encSize : KvsLogLine → Nat) (s : KvStore) (key value : String) :
    Except KvsError KvStore :=
  let logline := KvsLogLine.Set key value
  let startPos := s.writerPos
  match serialize_to_log encSize s logline with
  | .error e => .error e
  | .ok s1 =>
    let old := btLookup s1.index key
    let s2 := { s1 with
                index := btInsert s1.index key
                  ⟨s1.currentGen, startPos, s1.writerPos - startPos⟩ }
    let s3 := match old with
              | some oldCmd => { s2 with uncompacted := s2.uncompacted + oldCmd.len }
              | none => s2
    if s3.uncompacted > COMPACTION_THRESHOLD then
      .error (.Panic "compaction body does not compile")
    else .ok s3

/-- Deletion of a key, from `KvStore::remove` (kvs.rs:262-274): fails with
`KeyDoesNotExist` when the key is not in the index; otherwise serializes the
`Rm` record with the Result DISCARDED (kvs.rs:268 has no question mark, so a
write failure is ignored and the record is simply not on disk), removes the
key from the index, and adds the displaced record length to `uncompacted`.
No compaction check exists on this path. -/
def KvStore.remove (encSize : KvsLogLine → Nat) (s : KvStore) (key : String) :
    Except KvsError KvStore :=
  if btLookup s.index key = none then .error .KeyDoesNotExist
  else
    let s1 := match serialize_to_log encSize s (KvsLogLine.Rm key) with
              | .ok s2 => s2
              | .error _ => s
    let old := btLookup s1.index key
    let s2 := { s1 with index := btRemove s1.index key }
    let s3 := match old with
              | some oldCmd => { s2 with uncompacted := s2.uncompacted + oldCmd.len }
              | none => s2
    .ok s3

/-- One step of replay, the loop body of `load` (kvs.rs:370-387) applied to a
framed record occupying `(pos, len)`: `Set` inserts `(gen, pos..new_pos)` and
counts a displaced entry as stale; `Rm` removes the entry, counts it as stale,
and also counts the `Rm` record itself (`new_pos - pos`). -/
def loadStep (gen : Nat) (acc : Index × Nat) (r : Nat × Nat × KvsLogLine) : Index × Nat :=
  match r.snd.snd with
  | KvsLogLine.Set key _ =>
    let old := btLookup acc.fst key
    (btInsert acc.fst key ⟨gen, r.fst, r.snd.fst⟩,
     acc.snd + (match old with | some c => c.len | none => 0))
  | KvsLogLine.Rm key =>
    let old := btLookup acc.fst key
    (btRemove acc.fst key,
     acc.snd + (match old with | some c => c.len | none => 0) + r.snd.fst)

/-- Replay of one whole segment, from `load` (kvs.rs:363-389) at record
granularity: records are consumed in file order, positions and lengths are the
stored ones (which sequential byte reads of a contiguous segment reproduce). -/
def load (gen : Nat) (f : LogFile) (acc : Index × Nat) : Index × Nat :=
  f.foldl (loadStep gen) acc

/-- Sort a generation-keyed list ascending by generation, the effect of
`sort_unstable` (kvs.rs:407) on the generation list. -/
def sortByGen {α : Type} (l : List (Nat × α)) : List (Nat × α) :=
  List.insertionSort (fun a b => a.fst ≤ b.fst) l

/-- Fold `load` over segments in the given order, accumulating the index and
the `uncompacted` counter, as the open loop (kvs.rs:157-161) does. -/
def loadFold (d : Dir) : Index × Nat :=
  d.foldl (fun acc gf => load gf.fst gf.snd acc) (([] : Index), 0)

/-- Opening a store, from `KvStore::open` (kvs.rs:147-174): take the segments
in ascending generation order (`sorted_gen_list`), replay each with `load`
accumulating index and `uncompacted`, set
`current_gen = gen_list.last().unwrap_or(&0) + 1`, and create the new empty
active segment (`new_log_file`, which also registers its reader).  The
directory is given as generation-to-contents pairs; filename parsing itself is
modelled separately for the naming claims. -/
def KvStore.openStore (dir : Dir) (wFail : Bool) : KvStore :=
  let sorted := sortByGen dir
  let loaded := loadFold sorted
  let currentGen := (sorted.map Prod.fst).getLast?.getD 0 + 1
  { files := sorted ++ [(currentGen, [])],
    currentGen := currentGen,
    writerPos := 0,
    index := loaded.fst,
    uncompacted := loaded.snd,
    writerFails := wFail }

/-- A client-visible store operation. -/
inductive Op where
  | set (key value : String)
  | remove (key : String)
deriving DecidableEq, Repr

/-- Run a sequence of operations, stopping at the first error. -/
def runOps (encSize : KvsLogLine → Nat) : KvStore → List Op → Except KvsError KvStore
  | s, [] => .ok s
  | s, op :: rest =>
    match (match op with
           | Op.set k v => KvStore.set encSize s k v
           | Op.remove k => KvStore.remove encSize s k) with
    | .error e => .error e
    | .ok s1 => runOps encSize s1 rest

/-- Effect of one operation on the pending value of key `k`. -/
def lastSetStep (k : String) (acc : Option String) (op : Op) : Option String :=
  match op with
  | Op.set k2 v => if k2 = k then some v else acc
  | Op.remove k2 => if k2 = k then none else acc

/-- The value of the last `set` of key `k` in `ops` not followed by a
`remove` of `k`; `none` when `k` was never set or was removed afterwards. -/
def lastSetNotRemoved (ops : List Op) (k : String) : Option String :=
  ops.foldl (lastSetStep k) none

/-- A concrete payload-size function for witnesses: every record has a
one-byte payload. -/
def encOne : KvsLogLine → Nat := fun _ => 1

/-!
Byte-level model of segment replay, for the corrupt-tail claims.  A segment
is its list of bytes (each a value below 256); flexbuffers decoding of a
payload buffer is the parameter `decode` (`none` models a
`flexbuffers::Reader::get_root` or `Deserialize` failure).
-/

/-- A buffered reader with position, from `BufReaderWithPos` (kvs.rs:59-95):
`data` is the file, `consumed` how many bytes the inner reader has really
yielded, `pos` the tracked position counter. -/
structure ByteReader where
  data : List Nat
  consumed : Nat
  pos : Nat
deriving DecidableEq, Repr

/-- The overridden `read_exact` (kvs.rs:83-88): it calls the inner
`read_exact` and DROPS its Result, so a short read near end of file is not
reported; the buffer keeps its zero initialisation past the bytes actually
available (both call sites pass zero-filled buffers), and `pos` is advanced by
the full requested length regardless. -/
def readExactBuggy (r : ByteReader) (n : Nat) : List Nat × ByteReader :=
  let avail := r.data.length - r.consumed
  let k := min n avail
  ((r.data.drop r.consumed).take k ++ List.replicate (n - k) 0,
   { r with consumed := r.consumed + k, pos := r.pos + n })

/-- Little-endian byte-list to number (`u32::from_le_bytes`,
`usize::from_le_bytes`). -/
def leBytesToNat (l : List Nat) : Nat :=
  l.foldr (fun b acc => b + 256 * acc) 0

/-- The `is_empty` check (kvs.rs:72-75): `fill_buf` returns an empty slice
exactly when the reader is at end of file. -/
def isEmptyR (r : ByteReader) : Bool := r.data.length ≤ r.consumed

/-- Byte-level `deserialize_from_log` (kvs.rs:351-361): read 4 prefix bytes
(errors swallowed by `readExactBuggy`), interpret as little-endian u32, read
that many payload bytes (ditto), then decode the payload; the question mark on
decoding propagates a failure. -/
def deserializeBytes (decode : List Nat → Option KvsLogLine) (r : ByteReader) :
    Except KvsError (KvsLogLine × ByteReader) :=
  let p1 := readExactBuggy r 4
  let p2 := readExactBuggy p1.snd (leBytesToNat p1.fst)
  match decode p2.fst with
  | some line => .ok (line, p2.snd)
  | none => .error (.Reader "undecodable payload")

/-- The payload buffer which the first record attempt at the reader position
hands to the decoder. -/
def firstPayloadBytes (r : ByteReader) : List Nat :=
  let p1 := readExactBuggy r 4
  (readExactBuggy p1.snd (leBytesToNat p1.fst)).fst

/-- Byte-level `load` (kvs.rs:363-389): while the reader is not at end of
file, deserialize one record and update index and stale counter; the first
decode failure aborts the whole replay with its error.  The fuel argument only
bounds the recursion; any fuel above the remaining byte count never runs out,
since each iteration consumes at least one real byte. -/
def loadBytesFuel (decode : List Nat → Option KvsLogLine) (gen : Nat) :
    Nat → ByteReader → Index → Nat → Except KvsError (Index × Nat)
  | 0, _, _, _ => .error (.Panic "fuel exhausted")
  | fuel + 1, r, idx, unc =>
    if isEmptyR r then .ok (idx, unc)
    else
      match deserializeBytes decode r with
      | .error e => .error e
      | .ok (line, r2) =>
        match line with
        | KvsLogLine.Set key _ =>
          let old := btLookup idx key
          loadBytesFuel decode gen fuel r2
            (btInsert idx key ⟨gen, r.pos, r2.pos - r.pos⟩)
            (unc + (match old with | some c => c.len | none => 0))
        | KvsLogLine.Rm key =>
          let old := btLookup idx key
          loadBytesFuel decode gen fuel r2 (btRemove idx key)
            (unc + (match old with | some c => c.len | none => 0) + (r2.pos - r.pos))

/-- Byte-level replay of one whole segment from its start. -/
def load_bytes (decode : List Nat → Option KvsLogLine) (gen : Nat) (data : List Nat)
    (idx : Index) (unc : Nat) : Except KvsError (Index × Nat) :=
  loadBytesFuel decode gen (data.length + 1) ⟨data, 0, 0⟩ idx unc

/-- Byte-level `KvStore::open` replay phase (kvs.rs:154-161): every segment is
replayed in ascending generation order, accumulating the index and the
`uncompacted` counter; the first failing segment fails the whole open through
the question mark on `load`. -/
def openReplay (decode : List Nat → Option KvsLogLine) (dirB : List (Nat × List Nat)) :
    Except KvsError (Index × Nat) :=
  (sortByGen dirB).foldlM
    (fun acc gf => load_bytes decode gf.fst gf.snd acc.fst acc.snd)
    (([] : Index), 0)

/-- A decoder rejecting every buffer, standing in for flexbuffers on inputs
that are not well-formed encodings (in the corrupt-tail scenarios below the
buffer fed to it is a zero-padded fragment, which flexbuffers rejects). -/
def decodeNothing : List Nat → Option KvsLogLine := fun _ => none

/-!
Filename-level model of `sorted_gen_list` (kvs.rs:395-409).  The input is the
list of names of the regular files in the directory (`read_dir` entries that
satisfy `path.is_file()`); the source keeps those with `extension() ==
Some("log")`, strips every trailing ".log" occurrence with
`trim_end_matches`, parses the remainder with `str::parse::<u64>`, drops
failures, and sorts ascending.
-/

/-- ASCII digit test. -/
def isAsciiDigit (c : Char) : Bool := decide (c.toNat ≥ 48) && decide (c.toNat ≤ 57)

/-- Rust `Path::extension` on a plain file name: the part after the last dot,
or nothing when there is no dot or the only dot is the leading character. -/
def extensionOf (name : String) : Option String :=
  let cs := name.data
  match cs.reverse.findIdx? (fun c => c = '.') with
  | none => none
  | some ri =>
    let i := cs.length - 1 - ri
    if i = 0 then none else some (String.mk (cs.drop (i + 1)))

/-- Strip every trailing ".log" from a reversed character list. -/
def stripLogRev : List Char → List Char
  | c1 :: c2 :: c3 :: c4 :: rest =>
    if c1 = 'g' ∧ c2 = 'o' ∧ c3 = 'l' ∧ c4 = '.' then stripLogRev rest
    else c1 :: c2 :: c3 :: c4 :: rest
  | cs => cs

/-- Rust `str::trim_end_matches(".log")`: remove every trailing occurrence of
".log". -/
def trimEndMatchesLog (s : String) : String :=
  String.mk (stripLogRev s.data.reverse).reverse

/-- Numeric value of a digit string. -/
def digitsToNat (cs : List Char) : Nat :=
  cs.foldl (fun a c => a * 10 + (c.toNat - 48)) 0

/-- Rust `str::parse::<u64>`: an optional leading plus sign, then one or more
ASCII digits, with the value below 2^64. -/
def parseU64 (s : String) : Option Nat :=
  let cs := if s.data.head? = some '+' then s.data.tail else s.data
  if cs.isEmpty then none
  else if cs.all isAsciiDigit then
    if digitsToNat cs < 2 ^ 64 then some (digitsToNat cs) else none
  else none

/-- Ascending sort of a list of numbers (`sort_unstable`). -/
def sortNats (l : List Nat) : List Nat :=
  List.insertionSort (fun a b => a ≤ b) l

/-- The generation list computed by `sorted_gen_list` (kvs.rs:395-409) from
the names of the regular files in the directory. -/
def sorted_gen_list (names : List String) : List Nat :=
  sortNats (names.filterMap (fun name =>
    if extensionOf name = some "log" then parseU64 (trimEndMatchesLog name) else none))

/-- The generation of the fresh active segment chosen by `KvStore::open`
(kvs.rs:163): `gen_list.last().unwrap_or(&0) + 1`. -/
def openCurrentGen (names : List String) : Nat :=
  (sorted_gen_list names).getLast?.getD 0 + 1

/-- Whether a file name matches the regular expression `^\d+\.log$` from the
specification: one or more ASCII digits followed by the single suffix ".log".
This definition follows the words of the specification, for comparison with
`sorted_gen_list`. -/
def matchesGenRegex (name : String) : Bool :=
  let cs := name.data
  decide (5 ≤ cs.length)
    && cs.drop (cs.length - 4) == ['.', 'l', 'o', 'g']
    && (cs.take (cs.length - 4)).all isAsciiDigit

/-!
Network layer.  common.rs declares the message enum as `NetworkConnection`;
the server binary refers to it as `NetworkCommand`.  The server name is used
here since the dispatch claims cite the server.
-/

/-- Client commands, from `Commands` (common.rs:15-22). -/
inductive Commands where
  | Set (key value : String)
  | Get (key : String)
  | Rm (key : String)
deriving DecidableEq, Repr

/-- Wire messages, from the tagged enum of common.rs:26-35. -/
inductive NetworkCommand where
  | Request (command : Commands)
  | Response (value : String)
  | Error (error : String)
  | Ok
deriving DecidableEq, Repr

/-- Request dispatch, from `handle_request` (kvs-server.rs:66-147).  The
result is the reply written back (none for a non-Request message, whose
branch is empty in the source) together with the store after the engine call.
A `Panic`-variant engine error would abort the process before any reply; the
dispatch rows stated in the theorems below never produce one. -/
def handle_request (encSize : KvsLogLine → Nat) (s : KvStore) (msg : NetworkCommand) :
    Option NetworkCommand × KvStore :=
  match msg with
  | NetworkCommand.Request command =>
    match command with
    | Commands.Get key =>
      match s.get key with
      | .ok (some val) => (some (NetworkCommand.Response val), s)
      | .ok none => (some (NetworkCommand.Error (KvsError.KeyDoesNotExist).display), s)
      | .error KvsError.KeyDoesNotExist => (some (NetworkCommand.Response ""), s)
      | .error e => (some (NetworkCommand.Error e.display), s)
    | Commands.Set key value =>
      match KvStore.set encSize s key value with
      | .error e => (some (NetworkCommand.Error e.display), s)
      | .ok s2 => (some (NetworkCommand.Response ""), s2)
    | Commands.Rm key =>
      match KvStore.remove encSize s key with
      | .error e => (some (NetworkCommand.Error e.display), s)
      | .ok s2 => (some (NetworkCommand.Response ""), s2)
  | _ => (none, s)

/-- Server startup engine resolution, from `main` (kvs-server.rs:32-56): the
store is opened unconditionally at the working directory, the engine name
defaults to "kvs", a requested name is accepted when it is "kvs" or "sled"
and rejected with `UnknownEngineType` otherwise.  No marker file is read or
written anywhere in the repository, so the outcome takes no input describing
prior sessions beyond the directory contents passed to open. -/
def serverStartup (cliEngine : Option String) (dir : Dir) :
    Except KvsError (String × KvStore) :=
  let store := KvStore.openStore dir false
  match cliEngine with
  | none => .ok ("kvs", store)
  | some e =>
    if e = "kvs" || e = "sled" then .ok (e, store)
    else .error (.UnknownEngineType e)

/-!
Wire framing, from common.rs send_network_message (65-75) and
receive_network_message (82-90).  A stream is its list of bytes.
-/

/-- Rust `u8::is_ascii_whitespace`: space, horizontal tab, line feed, form
feed, carriage return. -/
def isAsciiWsByte (b : Nat) : Bool :=
  b == 9 || b == 10 || b == 12 || b == 13 || b == 32

/-- Little-endian encoding of a number into `k` bytes
(`usize::to_le_bytes` for `k = 8`). -/
def toLeBytes : Nat → Nat → List Nat
  | 0, _ => []
  | k + 1, n => n % 256 :: toLeBytes k (n / 256)

/-- Rust `slice::trim_ascii`: drop ASCII whitespace bytes from both ends. -/
def trimAsciiBytes (l : List Nat) : List Nat :=
  ((l.dropWhile isAsciiWsByte).reverse.dropWhile isAsciiWsByte).reverse

/-- Bytes put on the stream by `send_network_message` (common.rs:65-75): the
8 little-endian bytes of the payload length (usize, 64-bit host), the
sentinel newline, then the payload.  The source serializes the message twice
(lines 69 and 72); serialization is deterministic, so both yield these same
payload bytes. -/
def send_network_message (payload : List Nat) : List Nat :=
  toLeBytes 8 payload.length ++ [10] ++ payload

/-- Rust `BufRead::read_until(b'\n')`: consume up to and including the first
newline byte, or everything when none occurs; returns (consumed, rest). -/
def readUntilNl : List Nat → List Nat × List Nat
  | [] => ([], [])
  | b :: rest =>
    if b = 10 then ([b], rest)
    else
      let p := readUntilNl rest
      (b :: p.fst, p.snd)

/-- Failure modes of `receive_network_message`: the `try_into().unwrap()`
panic when the trimmed length buffer is not exactly 8 bytes, and the
propagated `read_exact` error when the stream ends inside the payload. -/
inductive RecvError where
  | LengthPanic
  | IoEof
deriving DecidableEq, Repr

/-- Byte-level `receive_network_message` (common.rs:82-90): `read_until`
newline, `trim_ascii` the consumed bytes, convert to an 8-byte array
(panicking otherwise), read that many payload bytes exactly. -/
def receive_network_message (stream : List Nat) : Except RecvError (List Nat) :=
  let p := readUntilNl stream
  let trimmed := trimAsciiBytes p.fst
  if trimmed.length = 8 then
    let contentSize := leBytesToNat trimmed
    if contentSize ≤ p.snd.length then .ok (p.snd.take contentSize)
    else .error RecvError.IoEof
  else .error RecvError.LengthPanic

/-!
Concrete inputs used by the witnesses and counterexamples below.
-/

/-- The store reached from an empty directory by one `set "a" "b"`. -/
def c2ws : KvStore :=
  match runOps encOne (KvStore.openStore [] false) [Op.set "a" "b"] with
  | .ok s => s
  | .error _ => KvStore.openStore [] false

/-- The store reached from an empty directory by
`set "k" "v1"; set "j" "w"; set "k" "v2"`. -/
def c1ws : KvStore :=
  match runOps encOne (KvStore.openStore [] false)
      [Op.set "k" "v1", Op.set "j" "w", Op.set "k" "v2"] with
  | .ok s => s
  | .error _ => KvStore.openStore [] false

/-- A store holding one two-megabyte record for key "k" (a value of roughly
that size), with a healthy writer. -/
def c3store : KvStore :=
  { files := [(1, [(0, 2000000, KvsLogLine.Set "k" "v")])],
    currentGen := 1,
    writerPos := 2000000,
    index := [("k", ⟨1, 0, 2000000⟩)],
    uncompacted := 0,
    writerFails := false }

/-- The store left by removing "k" from `c3store`. -/
def c3res : KvStore :=
  match KvStore.remove encOne c3store "k" with
  | .ok s => s
  | .error _ => c3store

/-- A store holding one ten-byte record for key "k". -/
def c4store : KvStore :=
  { files := [(1, [(0, 10, KvsLogLine.Set "k" "v")])],
    currentGen := 1,
    writerPos := 10,
    index := [("k", ⟨1, 0, 10⟩)],
    uncompacted := 0,
    writerFails := false }

/-- The store left by removing "k" from `c4store`. -/
def c4res : KvStore :=
  match KvStore.remove encOne c4store "k" with
  | .ok s => s
  | .error _ => c4store

/-- Segment bytes whose tail is a truncated write: the length prefix
announces a 5-byte payload but only 2 payload bytes follow. -/
def c5bytes : List Nat := [5, 0, 0, 0, 1, 2]

/-- A store freshly opened on an empty directory. -/
def c6store : KvStore := KvStore.openStore [] false

/-- The directory left on disk by a first server session started with engine
"kvs" on an empty directory (one empty active segment). -/
def c7dir : Dir := (KvStore.openStore [] false).files

/-- A store with key "k" present whose writer fails every append. -/
def c9store : KvStore :=
  { files := [(1, [(0, 7, KvsLogLine.Set "k" "v")])],
    currentGen := 1,
    writerPos := 7,
    index := [("k", ⟨1, 0, 7⟩)],
    uncompacted := 0,
    writerFails := true }

/-- The store left by removing "k" from `c9store`. -/
def c9res : KvStore :=
  match KvStore.remove encOne c9store "k" with
  | .ok s => s
  | .error _ => c9store

/-- A nine-byte network payload: its length, 9 = 0x09, is the ASCII
horizontal tab, which `trim_ascii` strips. -/
def c10payload : List Nat := [1, 1, 1, 1, 1, 1, 1, 1, 1]

/-- A three-byte network payload, whose length bytes survive framing. -/
def c10good : List Nat := [65, 66, 67]

/-!
Invariants used in the proofs.
-/

/-- Writer-file well-formedness: the active segment is registered in the
reader set and every record in it starts strictly below the writer position.
This holds for every store the program can construct, since the active
segment is created empty with the writer at position zero and records are
only appended at the writer position. -/
def WFc (s : KvStore) : Prop :=
  ∃ f, fileLookup s.files s.currentGen = some f ∧ ∀ r ∈ f, r.fst < s.writerPos

/-- Invariant tying a running store to its on-disk state, for the
persistence claim: the files are the initially replayed base directory plus
the active segment, the index is exactly what replaying all files yields,
the writer works, base generations lie below the current one and are sorted,
and every index entry points into a registered file. -/
def C2Inv (base : Dir) (s : KvStore) : Prop :=
  ∃ f, s.files = base ++ [(s.currentGen, f)]
    ∧ s.index = (loadFold s.files).fst
    ∧ s.writerFails = false
    ∧ (∀ gf ∈ base, gf.fst < s.currentGen)
    ∧ List.Pairwise (fun a b => a.fst ≤ b.fst) base
    ∧ (∀ k c, (k, c) ∈ s.index → (fileLookup s.files c.gen).isSome = true)

/-!
Helper lemmas.
-/

instance instIsTotalGenLe {α : Type} : IsTotal (Nat × α) (fun a b => a.fst ≤ b.fst) :=
  ⟨fun a b => Nat.le_total a.fst b.fst⟩

instance instIsTransGenLe {α : Type} : IsTrans (Nat × α) (fun a b => a.fst ≤ b.fst) :=
  ⟨fun _ _ _ hab hbc => Nat.le_trans hab hbc⟩

theorem btLookup_btInsert (idx : Index) (k k2 : String) (c : CommandPos) :
    btLookup (btInsert idx k2 c) k = if k = k2 then some c else btLookup idx k := by
  induction idx with
  | nil => simp [btInsert, btLookup]
  | cons hd tl ih =>
    obtain ⟨k3, c3⟩ := hd
    by_cases h2 : k2 = k3
    · subst h2
      by_cases h1 : k = k2 <;> simp [btInsert, btLookup, h1]
    · by_cases h1 : k = k3
      · subst h1
        have hne : ¬ k = k2 := fun h => h2 (h ▸ rfl)
        simp [btInsert, btLookup, h2, hne]
      · simp [btInsert, btLookup, h2, h1, ih]

theorem btLookup_btRemove_ne (idx : Index) (k k2 : String) (h : k ≠ k2) :
    btLookup (btRemove idx k2) k = btLookup idx k := by
  induction idx with
  | nil => simp [btRemove]
  | cons hd tl ih =>
    obtain ⟨k3, c3⟩ := hd
    by_cases h2 : k2 = k3
    · subst h2
      simp [btRemove, btLookup, h]
    · by_cases h1 : k = k3 <;> simp [btRemove, btLookup, h2, h1, ih]

theorem btLookup_mem (idx : Index) (k : String) (c : CommandPos)
    (h : btLookup idx k = some c) : (k, c) ∈ idx := by
  induction idx with
  | nil => simp [btLookup] at h
  | cons hd tl ih =>
    obtain ⟨k3, c3⟩ := hd
    by_cases h1 : k = k3
    · subst h1
      simp [btLookup] at h
      simp [h]
    · simp [btLookup, h1] at h
      exact List.mem_cons_of_mem _ (ih h)

theorem mem_btInsert (idx : Index) (k : String) (c : CommandPos) (x : String × CommandPos)
    (h : x ∈ btInsert idx k c) : x = (k, c) ∨ x ∈ idx := by
  induction idx with
  | nil => simp [btInsert] at h; simp [h]
  | cons hd tl ih =>
    obtain ⟨k3, c3⟩ := hd
    by_cases h2 : k = k3
    · subst h2
      simp [btInsert] at h
      rcases h with h | h
      · exact Or.inl h
      · exact Or.inr (List.mem_cons_of_mem _ h)
    · simp [btInsert, h2] at h
      rcases h with h | h
      · exact Or.inr (by simp [h])
      · rcases ih h with h3 | h3
        · exact Or.inl h3
        · exact Or.inr (List.mem_cons_of_mem _ h3)

theorem mem_btRemove (idx : Index) (k : String) (x : String × CommandPos)
    (h : x ∈ btRemove idx k) : x ∈ idx := by
  induction idx with
  | nil => simp [btRemove] at h
  | cons hd tl ih =>
    obtain ⟨k3, c3⟩ := hd
    by_cases h2 : k = k3
    · simp [btRemove, h2] at h
      exact List.mem_cons_of_mem _ h
    · simp [btRemove, h2] at h
      rcases h with h | h
      · simp [h]
      · exact List.mem_cons_of_mem _ (ih h)

theorem fileLookup_updateFile (d : Dir) (gen g : Nat) (rec : Nat × Nat × KvsLogLine) :
    fileLookup (updateFile d gen rec) g =
      if g = gen then (fileLookup d g).map (fun f => f ++ [rec]) else fileLookup d g := by
  induction d with
  | nil => by_cases h : g = gen <;> simp [updateFile, fileLookup, h]
  | cons hd tl ih =>
    obtain ⟨g3, f3⟩ := hd
    have hstep : updateFile ((g3, f3) :: tl) gen rec =
        (if g3 = gen then (g3, f3 ++ [rec]) else (g3, f3)) :: updateFile tl gen rec := by
      simp [updateFile]
    rw [hstep]
    by_cases h3 : g3 = gen
    · rw [if_pos h3]
      by_cases hg : g = g3
      · subst hg
        simp [fileLookup, h3]
      · have hg2 : ¬ g = gen := fun h => hg (h.trans h3.symm)
        simp [fileLookup, hg, hg2] at ih ⊢
        rw [ih]
    · rw [if_neg h3]
      by_cases hg : g = g3
      · subst hg
        have hg2 : ¬ g = gen := h3
        simp [fileLookup, hg2]
      · simp [fileLookup, hg] at ih ⊢
        rw [ih]

theorem fileLookup_append_some (d d2 : Dir) (g : Nat) (f : LogFile)
    (h : fileLookup d g = some f) : fileLookup (d ++ d2) g = some f := by
  induction d with
  | nil => simp [fileLookup] at h
  | cons hd tl ih =>
    obtain ⟨g3, f3⟩ := hd
    by_cases h3 : g = g3
    · simp [fileLookup, h3] at h ⊢
      exact h
    · simp [fileLookup, h3] at h ⊢
      exact ih h

theorem fileLookup_isSome_iff (d : Dir) (g : Nat) :
    (fileLookup d g).isSome = true ↔ g ∈ d.map Prod.fst := by
  induction d with
  | nil => simp [fileLookup]
  | cons hd tl ih =>
    obtain ⟨g3, f3⟩ := hd
    by_cases h3 : g = g3
    · simp [fileLookup, h3]
    · simp [fileLookup, h3, ih]

theorem readAt_cons (hd : Nat × Nat × KvsLogLine) (tl : LogFile) (p : Nat) :
    readAt (hd :: tl) p = if hd.fst = p then some hd.snd.snd else readAt tl p := by
  by_cases hp : hd.fst = p
  · simp [readAt, List.find?, hp]
  · have hb : (hd.fst == p) = false := by simp [hp]
    simp [readAt, List.find?, hb, hp]

theorem readAt_append_some (f l : LogFile) (p : Nat) (r : KvsLogLine)
    (h : readAt f p = some r) : readAt (f ++ l) p = some r := by
  induction f with
  | nil => simp [readAt, List.find?] at h
  | cons hd tl ih =>
    rw [readAt_cons] at h
    rw [List.cons_append, readAt_cons]
    by_cases hp : hd.fst = p
    · rwa [if_pos hp] at h ⊢
    · rw [if_neg hp] at h ⊢
      exact ih h

theorem readAt_append_fresh (f : LogFile) (p x : Nat) (line : KvsLogLine)
    (h : ∀ r ∈ f, r.fst ≠ p) : readAt (f ++ [(p, x, line)]) p = some line := by
  induction f with
  | nil => simp [readAt, List.find?]
  | cons hd tl ih =>
    have hne : hd.fst ≠ p := h hd (by simp)
    rw [List.cons_append, readAt_cons, if_neg hne]
    exact ih (fun r hr => h r (List.mem_cons_of_mem _ hr))

theorem get_ok_some_iff (s : KvStore) (k w : String) :
    KvStore.get s k = .ok (some w) ↔
      ∃ c f a, btLookup s.index k = some c ∧ fileLookup s.files c.gen = some f ∧
        readAt f c.pos = some (KvsLogLine.Set a w) := by
  constructor
  · intro h
    cases hb : btLookup s.index k with
    | none =>
      simp only [KvStore.get, hb] at h
      exact absurd h (by simp)
    | some c =>
      simp only [KvStore.get, hb] at h
      cases hf : fileLookup s.files c.gen with
      | none =>
        simp only [hf] at h
        exact absurd h (by simp)
      | some f =>
        simp only [hf] at h
        cases hr : readAt f c.pos with
        | none =>
          simp only [hr] at h
          exact absurd h (by simp)
        | some line =>
          simp only [hr] at h
          cases line with
          | Set a val =>
            simp only [Except.ok.injEq, Option.some.injEq] at h
            exact ⟨c, f, a, rfl, hf, by rw [hr, h]⟩
          | Rm a => exact absurd h (by simp)
  · rintro ⟨c, f, a, hb, hf, hr⟩
    simp only [KvStore.get, hb, hf, hr]

theorem set_ok_elim (encSize : KvsLogLine → Nat) (s s' : KvStore) (k v : String)
    (h : KvStore.set encSize s k v = .ok s') :
    s.writerFails = false ∧
    s'.files = updateFile s.files s.currentGen
      (s.writerPos, 4 + encSize (KvsLogLine.Set k v), KvsLogLine.Set k v) ∧
    s'.currentGen = s.currentGen ∧
    s'.writerPos = s.writerPos + (4 + encSize (KvsLogLine.Set k v)) ∧
    s'.index = btInsert s.index k
      ⟨s.currentGen, s.writerPos, 4 + encSize (KvsLogLine.Set k v)⟩ ∧
    s'.writerFails = false := by
  unfold KvStore.set serialize_to_log at h
  cases hw : s.writerFails with
  | true => simp [hw] at h
  | false =>
    simp only [hw, Bool.false_eq_true, if_false] at h
    cases ho : btLookup s.index k with
    | none =>
      simp only [ho] at h
      split at h
      · exact absurd h (by simp)
      · have h2 := Except.ok.inj h
        subst h2
        simp [hw, Nat.add_sub_cancel_left]
    | some oldCmd =>
      simp only [ho] at h
      split at h
      · exact absurd h (by simp)
      · have h2 := Except.ok.inj h
        subst h2
        simp [hw, Nat.add_sub_cancel_left]

theorem remove_ok_elim (encSize : KvsLogLine → Nat) (s s' : KvStore) (k : String)
    (h : KvStore.remove encSize s k = .ok s') :
    (∃ c, btLookup s.index k = some c ∧ s'.uncompacted = s.uncompacted + c.len) ∧
    s'.index = btRemove s.index k ∧
    s'.currentGen = s.currentGen ∧
    s'.writerFails = s.writerFails ∧
    (s.writerFails = true → s'.files = s.files ∧ s'.writerPos = s.writerPos) ∧
    (s.writerFails = false →
      s'.files = updateFile s.files s.currentGen
        (s.writerPos, 4 + encSize (KvsLogLine.Rm k), KvsLogLine.Rm k) ∧
      s'.writerPos = s.writerPos + (4 + encSize (KvsLogLine.Rm k))) := by
  unfold KvStore.remove serialize_to_log at h
  cases ho : btLookup s.index k with
  | none => simp [ho] at h
  | some oldCmd =>
    cases hw : s.writerFails with
    | true =>
      simp only [ho, hw, if_true] at h
      simp only [reduceCtorEq, if_false] at h
      have h2 := Except.ok.inj h
      subst h2
      refine ⟨⟨oldCmd, rfl, by simp⟩, by simp, by simp, by simp [hw], ?_, ?_⟩
      · intro _
        exact ⟨by simp, by simp⟩
      · intro hcontra
        exact absurd hcontra (by simp)
    | false =>
      simp only [ho, hw, Bool.false_eq_true, if_false] at h
      simp only [reduceCtorEq, if_false] at h
      have h2 := Except.ok.inj h
      subst h2
      refine ⟨⟨oldCmd, rfl, by simp⟩, by simp, by simp, by simp [hw], ?_, ?_⟩
      · intro hcontra
        exact absurd hcontra (by simp)
      · intro _
        exact ⟨by simp, by simp⟩

theorem remove_error_elim (encSize : KvsLogLine → Nat) (s : KvStore) (k : String) (e : KvsError)
    (h : KvStore.remove encSize s k = .error e) :
    e = KvsError.KeyDoesNotExist ∧ btLookup s.index k = none := by
  unfold KvStore.remove serialize_to_log at h
  cases ho : btLookup s.index k with
  | none =>
    simp only [ho, if_pos] at h
    have := Except.error.inj h
    exact ⟨this.symm, rfl⟩
  | some oldCmd =>
    cases hw : s.writerFails with
    | true =>
      simp only [ho, hw, if_true] at h
      simp only [reduceCtorEq, if_false] at h
    | false =>
      simp only [ho, hw, Bool.false_eq_true, if_false] at h
      simp only [reduceCtorEq, if_false] at h

theorem WFc_set (encSize : KvsLogLine → Nat) (s s' : KvStore) (k v : String)
    (h : KvStore.set encSize s k v = .ok s') (hwf : WFc s) : WFc s' := by
  obtain ⟨f, hf, hbound⟩ := hwf
  obtain ⟨hw, hfiles, hgen, hpos, hidx, _⟩ := set_ok_elim encSize s s' k v h
  refine ⟨f ++ [(s.writerPos, 4 + encSize (KvsLogLine.Set k v), KvsLogLine.Set k v)], ?_, ?_⟩
  · rw [hfiles, hgen, fileLookup_updateFile]
    simp [hf]
  · intro r hr
    rw [hpos]
    rcases List.mem_append.mp hr with h1 | h1
    · exact Nat.lt_of_lt_of_le (hbound r h1) (Nat.le_add_right _ _)
    · simp only [List.mem_singleton] at h1
      subst h1
      simp

theorem WFc_remove (encSize : KvsLogLine → Nat) (s s' : KvStore) (k : String)
    (h : KvStore.remove encSize s k = .ok s') (hwf : WFc s) : WFc s' := by
  obtain ⟨f, hf, hbound⟩ := hwf
  obtain ⟨_, hidx, hgen, hwfl, htrue, hfalse⟩ := remove_ok_elim encSize s s' k h
  cases hw : s.writerFails with
  | true =>
    obtain ⟨hfiles, hpos⟩ := htrue hw
    exact ⟨f, by rw [hfiles, hgen]; exact hf, by rw [hpos]; exact hbound⟩
  | false =>
    obtain ⟨hfiles, hpos⟩ := hfalse hw
    refine ⟨f ++ [(s.writerPos, 4 + encSize (KvsLogLine.Rm k), KvsLogLine.Rm k)], ?_, ?_⟩
    · rw [hfiles, hgen, fileLookup_updateFile]
      simp [hf]
    · intro r hr
      rw [hpos]
      rcases List.mem_append.mp hr with h1 | h1
      · exact Nat.lt_of_lt_of_le (hbound r h1) (Nat.le_add_right _ _)
      · simp only [List.mem_singleton] at h1
        subst h1
        simp

theorem get_after_set (encSize : KvsLogLine → Nat) (s s' : KvStore) (k v : String)
    (hwf : WFc s) (h : KvStore.set encSize s k v = .ok s') :
    s'.get k = .ok (some v) := by
  obtain ⟨f, hf, hbound⟩ := hwf
  obtain ⟨hw, hfiles, hgen, hpos, hidx, _⟩ := set_ok_elim encSize s s' k v h
  rw [get_ok_some_iff]
  refine ⟨⟨s.currentGen, s.writerPos, 4 + encSize (KvsLogLine.Set k v)⟩,
          f ++ [(s.writerPos, 4 + encSize (KvsLogLine.Set k v), KvsLogLine.Set k v)], k,
          ?_, ?_, ?_⟩
  · rw [hidx, btLookup_btInsert]
    simp
  · rw [hfiles]
    show fileLookup (updateFile s.files s.currentGen _) s.currentGen = _
    rw [fileLookup_updateFile]
    simp [hf]
  · exact readAt_append_fresh f s.writerPos _ _ (fun r hr => Nat.ne_of_lt (hbound r hr))

theorem get_stable_set (encSize : KvsLogLine → Nat) (s s' : KvStore) (k2 v2 k w : String)
    (hne : k ≠ k2) (h : KvStore.set encSize s k2 v2 = .ok s')
    (hget : s.get k = .ok (some w)) : s'.get k = .ok (some w) := by
  obtain ⟨c, f0, a, hb, hf0, hr⟩ := (get_ok_some_iff s k w).mp hget
  obtain ⟨hw, hfiles, hgen, hpos, hidx, _⟩ := set_ok_elim encSize s s' k2 v2 h
  rw [get_ok_some_iff]
  have hbk : btLookup s'.index k = some c := by
    rw [hidx, btLookup_btInsert, if_neg hne]
    exact hb
  by_cases hcg : c.gen = s.currentGen
  · refine ⟨c, f0 ++ [(s.writerPos, 4 + encSize (KvsLogLine.Set k2 v2), KvsLogLine.Set k2 v2)],
            a, hbk, ?_, readAt_append_some _ _ _ _ hr⟩
    rw [hfiles, fileLookup_updateFile, if_pos hcg, hf0]
    simp
  · refine ⟨c, f0, a, hbk, ?_, hr⟩
    rw [hfiles, fileLookup_updateFile, if_neg hcg]
    exact hf0

theorem get_stable_remove (encSize : KvsLogLine → Nat) (s s' : KvStore) (k2 k w : String)
    (hne : k ≠ k2) (h : KvStore.remove encSize s k2 = .ok s')
    (hget : s.get k = .ok (some w)) : s'.get k = .ok (some w) := by
  obtain ⟨c, f0, a, hb, hf0, hr⟩ := (get_ok_some_iff s k w).mp hget
  obtain ⟨_, hidx, hgen, hwfl, htrue, hfalse⟩ := remove_ok_elim encSize s s' k2 h
  rw [get_ok_some_iff]
  have hbk : btLookup s'.index k = some c := by
    rw [hidx, btLookup_btRemove_ne _ _ _ hne]
    exact hb
  cases hw : s.writerFails with
  | true =>
    obtain ⟨hfiles, _⟩ := htrue hw
    exact ⟨c, f0, a, hbk, by rw [hfiles]; exact hf0, hr⟩
  | false =>
    obtain ⟨hfiles, _⟩ := hfalse hw
    by_cases hcg : c.gen = s.currentGen
    · refine ⟨c, f0 ++ [(s.writerPos, 4 + encSize (KvsLogLine.Rm k2), KvsLogLine.Rm k2)],
              a, hbk, ?_, readAt_append_some _ _ _ _ hr⟩
      rw [hfiles, fileLookup_updateFile, if_pos hcg, hf0]
      simp
    · refine ⟨c, f0, a, hbk, ?_, hr⟩
      rw [hfiles, fileLookup_updateFile, if_neg hcg]
      exact hf0

theorem sortByGen_pairwise {α : Type} (l : List (Nat × α)) :
    (sortByGen l).Pairwise (fun a b => a.fst ≤ b.fst) := by
  unfold sortByGen
  have h := List.sorted_insertionSort (fun (a b : Nat × α) => a.fst ≤ b.fst) l
  simpa [List.Sorted] using h

theorem le_getLastD_of_pairwise (l : List Nat) (h : l.Pairwise (· ≤ ·)) :
    ∀ x ∈ l, x ≤ l.getLast?.getD 0 := by
  induction l with
  | nil => intro x hx; simp at hx
  | cons a t ih =>
    intro x hx
    rcases List.mem_cons.mp hx with rfl | hx2
    · cases t with
      | nil => simp
      | cons b t2 =>
        have hab : x ≤ b := (List.pairwise_cons.mp h).1 b (by simp)
        have hbl := ih (List.pairwise_cons.mp h).2 b (by simp)
        have : (x :: b :: t2).getLast?.getD 0 = (b :: t2).getLast?.getD 0 := by
          simp [List.getLast?_cons_cons]
        rw [this]
        exact Nat.le_trans hab hbl
    · have hxl := ih (List.pairwise_cons.mp h).2 x hx2
      cases t with
      | nil => simp at hx2
      | cons b t2 =>
        have : (a :: b :: t2).getLast?.getD 0 = (b :: t2).getLast?.getD 0 := by
          simp [List.getLast?_cons_cons]
        rw [this]
        exact hxl

theorem openStore_gen_lt (dir : Dir) (gf : Nat × LogFile) (hmem : gf ∈ sortByGen dir) :
    gf.fst < (List.map Prod.fst (sortByGen dir)).getLast?.getD 0 + 1 := by
  have hp := sortByGen_pairwise dir
  have hp2 : (List.map Prod.fst (sortByGen dir)).Pairwise (· ≤ ·) :=
    List.pairwise_map.mpr hp
  have hx : gf.fst ∈ List.map Prod.fst (sortByGen dir) := List.mem_map_of_mem _ hmem
  have := le_getLastD_of_pairwise _ hp2 _ hx
  omega

theorem fileLookup_append_right (d d2 : Dir) (g : Nat) (h : ∀ gf ∈ d, gf.fst ≠ g) :
    fileLookup (d ++ d2) g = fileLookup d2 g := by
  induction d with
  | nil => simp
  | cons hd tl ih =>
    have hne : hd.fst ≠ g := h hd (by simp)
    obtain ⟨g3, f3⟩ := hd
    simp only [List.cons_append, fileLookup]
    rw [if_neg (fun he => hne (by simpa using he.symm))]
    exact ih (fun gf hgf => h gf (List.mem_cons_of_mem _ hgf))

theorem WFc_openStore (dir : Dir) (wf : Bool) : WFc (KvStore.openStore dir wf) := by
  refine ⟨[], ?_, by simp⟩
  simp only [KvStore.openStore]
  rw [fileLookup_append_right]
  · simp [fileLookup]
  · intro gf hmem
    exact Nat.ne_of_lt (openStore_gen_lt dir gf hmem)

theorem runOps_lastSet (encSize : KvsLogLine → Nat) (k : String) :
    ∀ (ops : List Op) (s s' : KvStore) (acc : Option String),
      WFc s → runOps encSize s ops = .ok s' →
      (∀ v, acc = some v → s.get k = .ok (some v)) →
      ∀ v, ops.foldl (lastSetStep k) acc = some v → s'.get k = .ok (some v) := by
  intro ops
  induction ops with
  | nil =>
    intro s s' acc hwf h hacc v hv
    simp only [runOps] at h
    have h2 := Except.ok.inj h
    subst h2
    exact hacc v (by simpa using hv)
  | cons op rest ih =>
    intro s s' acc hwf h hacc v hv
    simp only [List.foldl_cons] at hv
    cases op with
    | set k2 v2 =>
      cases happ : KvStore.set encSize s k2 v2 with
      | error e =>
        simp only [runOps, happ] at h
        exact absurd h (by simp)
      | ok s1 =>
        simp only [runOps, happ] at h
        refine ih s1 s' (lastSetStep k acc (Op.set k2 v2))
          (WFc_set _ _ _ _ _ happ hwf) h ?_ v hv
        intro v3 hv3
        simp only [lastSetStep] at hv3
        by_cases hk : k2 = k
        · rw [if_pos hk] at hv3
          have hv32 := Option.some.inj hv3
          rw [← hk, ← hv32]
          exact get_after_set encSize s s1 k2 v2 hwf happ
        · rw [if_neg hk] at hv3
          have hk2 : k ≠ k2 := fun he => hk he.symm
          exact get_stable_set encSize s s1 k2 v2 k v3 hk2 happ (hacc v3 hv3)
    | remove k2 =>
      cases happ : KvStore.remove encSize s k2 with
      | error e =>
        simp only [runOps, happ] at h
        exact absurd h (by simp)
      | ok s1 =>
        simp only [runOps, happ] at h
        refine ih s1 s' (lastSetStep k acc (Op.remove k2))
          (WFc_remove _ _ _ _ happ hwf) h ?_ v hv
        intro v3 hv3
        simp only [lastSetStep] at hv3
        by_cases hk : k2 = k
        · rw [if_pos hk] at hv3
          exact absurd hv3 (by simp)
        · rw [if_neg hk] at hv3
          have hk2 : k ≠ k2 := fun he => hk he.symm
          exact get_stable_remove encSize s s1 k2 k v3 hk2 happ (hacc v3 hv3)

/-- C1: for every sequence of set/remove operations run successfully on a
freshly opened KvStore whose last write to key k is a set of value v (no
later remove of k), a subsequent get(k) returns Some(v).  The payload size
function of the serializer and the health of the writer are arbitrary; a run
in which set would trigger the (non-compiling) compaction path does not
return successfully and is therefore outside the hypothesis. -/
theorem C1_round_trip (encSize : KvsLogLine → Nat) (dir : Dir) (wf : Bool)
    (ops : List Op) (s : KvStore)
    (h : runOps encSize (KvStore.openStore dir wf) ops = .ok s)
    (k v : String) (hlast : lastSetNotRemoved ops k = some v) :
    s.get k = .ok (some v) :=
  runOps_lastSet encSize k ops (KvStore.openStore dir wf) s none
    (WFc_openStore dir wf) h (fun _ hv => absurd hv (by simp)) v hlast

/-- Witness for C1: running set k v1; set j w; set k v2 from an empty
directory makes get k return Some v2. -/
theorem C1_round_trip_witness : c1ws.get "k" = .ok (some "v2") :=
  C1_round_trip encOne [] false [Op.set "k" "v1", Op.set "j" "w", Op.set "k" "v2"] c1ws
    (by rfl) "k" "v2" (by decide)

theorem load_append (gen : Nat) (f : LogFile) (r : Nat × Nat × KvsLogLine) (acc : Index × Nat) :
    load gen (f ++ [r]) acc = loadStep gen (load gen f acc) r := by
  simp [load, List.foldl_append]

theorem loadFold_append (d : Dir) (gf : Nat × LogFile) :
    loadFold (d ++ [gf]) = load gf.fst gf.snd (loadFold d) := by
  simp [loadFold, List.foldl_append]

theorem updateFile_append_last (base : Dir) (gen : Nat) (f : LogFile)
    (rec : Nat × Nat × KvsLogLine) (h : ∀ gf ∈ base, gf.fst ≠ gen) :
    updateFile (base ++ [(gen, f)]) gen rec = base ++ [(gen, f ++ [rec])] := by
  induction base with
  | nil => simp [updateFile]
  | cons hd tl ih =>
    have hne : hd.fst ≠ gen := h hd (by simp)
    simp only [List.cons_append, updateFile, List.map_cons] at ih ⊢
    rw [if_neg hne]
    have := ih (fun gf hgf => h gf (List.mem_cons_of_mem _ hgf))
    simp only [updateFile] at this
    rw [this]

theorem mem_load_gen (gen : Nat) (f : LogFile) :
    ∀ (acc : Index × Nat) (k : String) (c : CommandPos),
      (k, c) ∈ (load gen f acc).fst → c.gen = gen ∨ (k, c) ∈ acc.fst := by
  induction f with
  | nil =>
    intro acc k c h
    exact Or.inr h
  | cons r rest ih =>
    intro acc k c h
    have h2 : load gen (r :: rest) acc = load gen rest (loadStep gen acc r) := by
      simp [load]
    rw [h2] at h
    rcases ih (loadStep gen acc r) k c h with h3 | h3
    · exact Or.inl h3
    · cases hline : r.snd.snd with
      | Set key val =>
        simp only [loadStep, hline] at h3
        rcases mem_btInsert _ _ _ _ h3 with h4 | h4
        · have : c = ⟨gen, r.fst, r.snd.fst⟩ := congrArg Prod.snd h4
          rw [this]
          exact Or.inl rfl
        · exact Or.inr h4
      | Rm key =>
        simp only [loadStep, hline] at h3
        exact Or.inr (mem_btRemove _ _ _ h3)

theorem mem_loadFold_gen (d : Dir) :
    ∀ (k : String) (c : CommandPos), (k, c) ∈ (loadFold d).fst →
      c.gen ∈ d.map Prod.fst := by
  induction d using List.reverseRecOn with
  | nil =>
    intro k c h
    simp [loadFold] at h
  | append_singleton d gf ih =>
    intro k c h
    rw [loadFold_append] at h
    rcases mem_load_gen gf.fst gf.snd (loadFold d) k c h with h2 | h2
    · simp [h2]
    · have := ih k c h2
      simp only [List.map_append, List.mem_append]
      exact Or.inl this

theorem C2Inv_openStore (dir : Dir) : C2Inv (sortByGen dir) (KvStore.openStore dir false) := by
  refine ⟨[], ?_, ?_, rfl, ?_, sortByGen_pairwise dir, ?_⟩
  · simp [KvStore.openStore]
  · simp only [KvStore.openStore]
    rw [loadFold_append]
    simp [load]
  · intro gf hmem
    simp only [KvStore.openStore]
    exact openStore_gen_lt dir gf hmem
  · intro k c hmem
    simp only [KvStore.openStore] at hmem ⊢
    have hg := mem_loadFold_gen (sortByGen dir) k c hmem
    have : (fileLookup (sortByGen dir) c.gen).isSome = true :=
      (fileLookup_isSome_iff _ _).mpr hg
    obtain ⟨f0, hf0⟩ := Option.isSome_iff_exists.mp this
    rw [fileLookup_append_some _ _ _ _ hf0]
    rfl

theorem isSome_fileLookup_updateFile (d : Dir) (gen g : Nat) (rec : Nat × Nat × KvsLogLine) :
    (fileLookup (updateFile d gen rec) g).isSome = (fileLookup d g).isSome := by
  rw [fileLookup_updateFile]
  by_cases hg : g = gen
  · rw [if_pos hg]
    cases fileLookup d g <;> simp
  · rw [if_neg hg]

theorem C2Inv_set (encSize : KvsLogLine → Nat) (base : Dir) (s s' : KvStore) (k v : String)
    (h : KvStore.set encSize s k v = .ok s') (hinv : C2Inv base s) : C2Inv base s' := by
  obtain ⟨f, hfiles, hidx, hwfl, hlt, hpw, hig⟩ := hinv
  obtain ⟨hw, hfiles', hgen, hpos, hidx', hw2⟩ := set_ok_elim encSize s s' k v h
  have hbase_ne : ∀ gf ∈ base, gf.fst ≠ s.currentGen :=
    fun gf hgf => Nat.ne_of_lt (hlt gf hgf)
  have hfilesnew : s'.files = base ++
      [(s.currentGen, f ++ [(s.writerPos, 4 + encSize (KvsLogLine.Set k v), KvsLogLine.Set k v)])] := by
    rw [hfiles', hfiles, updateFile_append_last _ _ _ _ hbase_ne]
  refine ⟨f ++ [(s.writerPos, 4 + encSize (KvsLogLine.Set k v), KvsLogLine.Set k v)],
      by rw [hfilesnew, hgen], ?_, hw2, ?_, hpw, ?_⟩
  · rw [hidx', hfilesnew, loadFold_append]
    have hprev : load s.currentGen f (loadFold base) = loadFold s.files := by
      rw [hfiles, loadFold_append]
    rw [load_append, hprev]
    simp only [loadStep]
    rw [hidx]
  · intro gf hgf
    rw [hgen]
    exact hlt gf hgf
  · intro k2 c hmem
    rw [hidx'] at hmem
    rcases mem_btInsert _ _ _ _ hmem with h4 | h4
    · have hc : c = ⟨s.currentGen, s.writerPos, 4 + encSize (KvsLogLine.Set k v)⟩ :=
        congrArg Prod.snd h4
      rw [hc, hfilesnew]
      rw [fileLookup_append_right _ _ _ hbase_ne]
      simp [fileLookup]
    · have := hig k2 c h4
      rw [hfiles']
      rw [isSome_fileLookup_updateFile]
      exact this

theorem C2Inv_remove (encSize : KvsLogLine → Nat) (base : Dir) (s s' : KvStore) (k : String)
    (h : KvStore.remove encSize s k = .ok s') (hinv : C2Inv base s) : C2Inv base s' := by
  obtain ⟨f, hfiles, hidx, hwfl, hlt, hpw, hig⟩ := hinv
  obtain ⟨_, hidx', hgen, hwfl', _, hfalse⟩ := remove_ok_elim encSize s s' k h
  obtain ⟨hfiles', hpos⟩ := hfalse hwfl
  have hbase_ne : ∀ gf ∈ base, gf.fst ≠ s.currentGen :=
    fun gf hgf => Nat.ne_of_lt (hlt gf hgf)
  have hfilesnew : s'.files = base ++
      [(s.currentGen, f ++ [(s.writerPos, 4 + encSize (KvsLogLine.Rm k), KvsLogLine.Rm k)])] := by
    rw [hfiles', hfiles, updateFile_append_last _ _ _ _ hbase_ne]
  refine ⟨f ++ [(s.writerPos, 4 + encSize (KvsLogLine.Rm k), KvsLogLine.Rm k)],
      by rw [hfilesnew, hgen], ?_, by rw [hwfl', hwfl], ?_, hpw, ?_⟩
  · rw [hidx', hfilesnew, loadFold_append]
    have hprev : load s.currentGen f (loadFold base) = loadFold s.files := by
      rw [hfiles, loadFold_append]
    rw [load_append, hprev]
    simp only [loadStep]
    rw [hidx]
  · intro gf hgf
    rw [hgen]
    exact hlt gf hgf
  · intro k2 c hmem
    rw [hidx'] at hmem
    have h4 := mem_btRemove _ _ _ hmem
    have := hig k2 c h4
    rw [hfiles']
    rw [isSome_fileLookup_updateFile]
    exact this

theorem C2Inv_runOps (encSize : KvsLogLine → Nat) (base : Dir) :
    ∀ (ops : List Op) (s s' : KvStore), C2Inv base s →
      runOps encSize s ops = .ok s' → C2Inv base s' := by
  intro ops
  induction ops with
  | nil =>
    intro s s' hinv h
    simp only [runOps] at h
    have h2 := Except.ok.inj h
    subst h2
    exact hinv
  | cons op rest ih =>
    intro s s' hinv h
    cases op with
    | set k2 v2 =>
      cases happ : KvStore.set encSize s k2 v2 with
      | error e =>
        simp only [runOps, happ] at h
        exact absurd h (by simp)
      | ok s1 =>
        simp only [runOps, happ] at h
        exact ih s1 s' (C2Inv_set encSize base s s1 k2 v2 happ hinv) h
    | remove k2 =>
      cases happ : KvStore.remove encSize s k2 with
      | error e =>
        simp only [runOps, happ] at h
        exact absurd h (by simp)
      | ok s1 =>
        simp only [runOps, happ] at h
        exact ih s1 s' (C2Inv_remove encSize base s s1 k2 happ hinv) h

/-- C2: for every successful run of operations from a store opened at a
directory, reopening a store on the resulting directory contents (which
replays every segment in ascending generation order via load) yields a store
whose get result on every key equals the get result of the original store. -/
theorem C2_persistence (encSize : KvsLogLine → Nat) (dir : Dir) (ops : List Op) (s : KvStore)
    (h : runOps encSize (KvStore.openStore dir false) ops = .ok s) (k : String) :
    (KvStore.openStore s.files false).get k = s.get k := by
  have hinv := C2Inv_runOps encSize (sortByGen dir) ops _ s (C2Inv_openStore dir) h
  obtain ⟨f, hfiles, hidx, hwfl, hlt, hpw, hig⟩ := hinv
  have hple : List.Pairwise (fun a b : Nat × LogFile => a.fst ≤ b.fst) s.files := by
    rw [hfiles, List.pairwise_append]
    refine ⟨hpw, by simp, ?_⟩
    intro a ha b hb
    simp only [List.mem_singleton] at hb
    subst hb
    exact Nat.le_of_lt (hlt a ha)
  have hss : sortByGen s.files = s.files := by
    unfold sortByGen
    have hs : List.Sorted (fun a b : Nat × LogFile => a.fst ≤ b.fst) s.files := hple
    exact hs.insertionSort_eq
  have hridx : (KvStore.openStore s.files false).index = s.index := by
    simp only [KvStore.openStore, hss]
    exact hidx.symm
  have hrfiles : ∃ rest, (KvStore.openStore s.files false).files = s.files ++ rest := by
    simp only [KvStore.openStore, hss]
    exact ⟨_, rfl⟩
  obtain ⟨rest, hrfiles⟩ := hrfiles
  cases hb : btLookup s.index k with
  | none => simp only [KvStore.get, hridx, hb]
  | some c =>
    have hmem := btLookup_mem _ _ _ hb
    have hsome := hig k c hmem
    obtain ⟨f0, hf0⟩ := Option.isSome_iff_exists.mp hsome
    have hf0' : fileLookup (KvStore.openStore s.files false).files c.gen = some f0 := by
      rw [hrfiles]
      exact fileLookup_append_some _ _ _ _ hf0
    simp only [KvStore.get, hridx, hb, hf0, hf0']

/-- Witness for C2: after set a b from an empty directory, reopening on the
resulting files gives the same get result for key a. -/
theorem C2_persistence_witness :
    (KvStore.openStore c2ws.files false).get "a" = c2ws.get "a" :=
  C2_persistence encOne [] [Op.set "a" "b"] c2ws (by rfl) "a"

theorem btLookup_eq_none_of_not_mem (idx : Index) (k : String)
    (h : k ∉ idx.map Prod.fst) : btLookup idx k = none := by
  induction idx with
  | nil => rfl
  | cons hd tl ih =>
    obtain ⟨k3, c3⟩ := hd
    simp only [List.map_cons, List.mem_cons] at h
    push_neg at h
    simp only [btLookup, if_neg h.1]
    exact ih h.2

theorem btLookup_btRemove_self (idx : Index) (k : String)
    (hnd : (idx.map Prod.fst).Nodup) : btLookup (btRemove idx k) k = none := by
  induction idx with
  | nil => rfl
  | cons hd tl ih =>
    obtain ⟨k3, c3⟩ := hd
    simp only [List.map_cons, List.nodup_cons] at hnd
    by_cases h : k = k3
    · subst h
      simp only [btRemove, if_pos rfl]
      exact btLookup_eq_none_of_not_mem tl k hnd.1
    · simp only [btRemove, if_neg h, btLookup, if_neg h]
      exact ih hnd.2

theorem remove_ok_of_mem (encSize : KvsLogLine → Nat) (s : KvStore) (k : String)
    (c : CommandPos) (hb : btLookup s.index k = some c) :
    ∃ s', KvStore.remove encSize s k = .ok s' := by
  cases hres : KvStore.remove encSize s k with
  | error e =>
    have := (remove_error_elim encSize s k e hres).2
    rw [hb] at this
    exact absurd this (by simp)
  | ok s' => exact ⟨s', rfl⟩

/-- C3: the code cannot perform the compaction the claim describes.  The
remove path has no threshold check at all (kvs.rs:262-274): removing a
2000000-byte record leaves `uncompacted` at 2000000, strictly above the one
megabyte threshold, with the operation returning Ok and no reset to zero.
(On the set path the threshold IS checked, but the compaction body it calls,
kvs.rs:276-320, reads fields `directory_path`, `elements`,
`read_file_handle`, `write_file_handle`, `stale_entries` that `KvStore`
does not declare, so the program does not compile and the behaviour the
claim describes cannot occur.) -/
theorem C3_remove_no_compaction :
    KvStore.remove encOne c3store "k" = .ok c3res ∧
    c3res.uncompacted = 2000000 ∧
    COMPACTION_THRESHOLD < c3res.uncompacted := by
  refine ⟨rfl, rfl, by decide⟩

/-- C4 counterexample: removing the key of a 10-byte record adds only those
10 bytes to `uncompacted`, not 10 plus the new Remove record length
(4 + 1 = 5 under encOne), contradicting the claim at this input. -/
theorem C4_counterexample :
    KvStore.remove encOne c4store "k" = .ok c4res ∧
    c4res.uncompacted = 10 ∧
    c4res.uncompacted ≠ 10 + (4 + encOne (KvsLogLine.Rm "k")) := by
  refine ⟨rfl, rfl, by decide⟩

/-- C4 amended: remove(key) fails with KeyDoesNotExist when key is absent
from the index; otherwise it appends a Remove record with the write result
discarded, deletes the key from the index, adds only the displaced record
length to uncompacted (not also the Remove record length), and never
triggers compaction (there is no threshold check on this path, so
uncompacted above the threshold persists). -/
theorem C4_remove_behavior (encSize : KvsLogLine → Nat) (s : KvStore) (k : String) :
    (btLookup s.index k = none → KvStore.remove encSize s k = .error KvsError.KeyDoesNotExist) ∧
    (∀ c, btLookup s.index k = some c →
      ∃ s', KvStore.remove encSize s k = .ok s' ∧
        s'.index = btRemove s.index k ∧
        s'.uncompacted = s.uncompacted + c.len) := by
  constructor
  · intro hb
    unfold KvStore.remove
    rw [hb]
    simp
  · intro c hb
    obtain ⟨s', hs'⟩ := remove_ok_of_mem encSize s k c hb
    obtain ⟨⟨c2, hc2, hunc⟩, hidx, _, _, _, _⟩ := remove_ok_elim encSize s s' k hs'
    rw [hb] at hc2
    have hcc := Option.some.inj hc2
    subst hcc
    exact ⟨s', hs', hidx, hunc⟩

/-- Witness for C4's amended claim: concrete store with a 10-byte record
whose removal yields uncompacted 10 and drops the key. -/
theorem C4_remove_behavior_witness :
    ∃ s', KvStore.remove encOne c4store "k" = .ok s' ∧
      s'.index = btRemove c4store.index "k" ∧
      s'.uncompacted = c4store.uncompacted + 10 :=
  (C4_remove_behavior encOne c4store "k").2 ⟨1, 0, 10⟩ (by rfl)

/-- C9: remove of a present key always returns Ok and deletes the key from
the in-memory index even when appending the Remove record to the log fails
(the serialize result is discarded at kvs.rs:268); the only error remove can
surface is KeyDoesNotExist.  The store and its writer fault flag are
arbitrary; the index keys are distinct as for any BTreeMap. -/
theorem C9_remove_ignores_write_errors (encSize : KvsLogLine → Nat) (s : KvStore) (k : String)
    (hnd : (s.index.map Prod.fst).Nodup) :
    (∀ e, KvStore.remove encSize s k = .error e → e = KvsError.KeyDoesNotExist) ∧
    ((btLookup s.index k).isSome = true →
      ∃ s', KvStore.remove encSize s k = .ok s' ∧ btLookup s'.index k = none) := by
  constructor
  · intro e he
    exact (remove_error_elim encSize s k e he).1
  · intro hsome
    obtain ⟨c, hc⟩ := Option.isSome_iff_exists.mp hsome
    obtain ⟨s', hs'⟩ := remove_ok_of_mem encSize s k c hc
    obtain ⟨_, hidx, _, _, _, _⟩ := remove_ok_elim encSize s s' k hs'
    refine ⟨s', hs', ?_⟩
    rw [hidx]
    exact btLookup_btRemove_self s.index k hnd

/-- Witness for C9: a store whose writer fails every append still removes
key k successfully and drops it from the index. -/
theorem C9_remove_ignores_write_errors_witness :
    KvStore.remove encOne c9store "k" = .ok c9res ∧
    btLookup c9res.index "k" = none ∧
    c9store.writerFails = true := by
  obtain ⟨s', hs', hnone⟩ :=
    (C9_remove_ignores_write_errors encOne c9store "k" (by decide)).2 (by rfl)
  have hcomp : KvStore.remove encOne c9store "k" = .ok c9res := by rfl
  rw [hcomp] at hs'
  have h2 := Except.ok.inj hs'
  subst h2
  exact ⟨hcomp, hnone, rfl⟩

/-- C5 counterexample: a directory whose only (hence highest-numbered)
segment ends in a truncated write (the prefix announces 5 payload bytes but
only 2 follow, so the decoder sees the zero-padded buffer and rejects it)
makes replay and open FAIL, instead of truncating the segment to the last
good record boundary and proceeding as the claim states. -/
theorem C5_counterexample :
    openReplay decodeNothing [(1, c5bytes)] =
      .error (KvsError.Reader "undecodable payload") := by rfl

/-- C5 amended: during replay, reaching the 4-byte length prefix exactly at
end of file is a clean, successful end of the segment; but a short or
undecodable payload at the tail of ANY segment, the highest-numbered
included, aborts load (and hence open) with the decode error, with no
truncation performed.  The reader state, segment generation, and decoder are
arbitrary; fuel is any positive amount (the wrapper always supplies more
fuel than remaining bytes). -/
theorem C5_load_tail_behavior (decode : List Nat → Option KvsLogLine) (gen fuel : Nat)
    (r : ByteReader) (idx : Index) (unc : Nat) :
    (isEmptyR r = true → loadBytesFuel decode gen (fuel + 1) r idx unc = .ok (idx, unc)) ∧
    (isEmptyR r = false → decode (firstPayloadBytes r) = none →
      loadBytesFuel decode gen (fuel + 1) r idx unc =
        .error (KvsError.Reader "undecodable payload")) := by
  constructor
  · intro he
    simp only [loadBytesFuel, he, if_true]
  · intro he hd
    have hd2 : decode (readExactBuggy (readExactBuggy r 4).snd
        (leBytesToNat (readExactBuggy r 4).fst)).fst = none := by
      simpa [firstPayloadBytes] using hd
    simp only [loadBytesFuel, he, Bool.false_eq_true, if_false, deserializeBytes, hd2]

/-- Witness for C5's amended claim: the empty segment replays cleanly and
the truncated segment c5bytes aborts with the decode error. -/
theorem C5_load_tail_behavior_witness :
    loadBytesFuel decodeNothing 1 1 ⟨[], 0, 0⟩ [] 0 = .ok ([], 0) ∧
    loadBytesFuel decodeNothing 1 7 ⟨c5bytes, 0, 0⟩ [] 0 =
      .error (KvsError.Reader "undecodable payload") :=
  ⟨(C5_load_tail_behavior decodeNothing 1 0 ⟨[], 0, 0⟩ [] 0).1 (by decide),
   (C5_load_tail_behavior decodeNothing 1 6 ⟨c5bytes, 0, 0⟩ [] 0).2 (by decide) (by rfl)⟩

/-- C6 counterexample: on a fresh store, a Get of an absent key is answered
with the Error-shaped message "Key not found" rather than the success-shaped
Response, and a successful Set is answered with Response "" rather than Ok,
contradicting the claimed dispatch table at these inputs. -/
theorem C6_counterexample :
    (handle_request encOne c6store (NetworkCommand.Request (Commands.Get "missing"))).fst =
      some (NetworkCommand.Error "Key not found") ∧
    some (NetworkCommand.Error "Key not found") ≠
      some (NetworkCommand.Response "Key not found") ∧
    (handle_request encOne c6store (NetworkCommand.Request (Commands.Set "a" "b"))).fst =
      some (NetworkCommand.Response "") ∧
    some (NetworkCommand.Response "") ≠ some NetworkCommand.Ok := by
  refine ⟨rfl, by decide, rfl, by decide⟩

/-- C6 amended: the dispatch table as implemented answers Get-hit with
Response v, Get-miss (engine returns Ok None) with Error "Key not found",
successful Set with Response "" (not Ok), Remove of an absent key with
Error "Key not found", and successful Remove with Response "". -/
theorem C6_dispatch (encSize : KvsLogLine → Nat) (s : KvStore) (k v : String) :
    (∀ w, s.get k = .ok (some w) →
      (handle_request encSize s (NetworkCommand.Request (Commands.Get k))).fst =
        some (NetworkCommand.Response w)) ∧
    (s.get k = .ok none →
      (handle_request encSize s (NetworkCommand.Request (Commands.Get k))).fst =
        some (NetworkCommand.Error "Key not found")) ∧
    (∀ s2, KvStore.set encSize s k v = .ok s2 →
      (handle_request encSize s (NetworkCommand.Request (Commands.Set k v))).fst =
        some (NetworkCommand.Response "")) ∧
    (btLookup s.index k = none →
      (handle_request encSize s (NetworkCommand.Request (Commands.Rm k))).fst =
        some (NetworkCommand.Error "Key not found")) ∧
    (∀ s2, KvStore.remove encSize s k = .ok s2 →
      (handle_request encSize s (NetworkCommand.Request (Commands.Rm k))).fst =
        some (NetworkCommand.Response "")) := by
  refine ⟨?_, ?_, ?_, ?_, ?_⟩
  · intro w hw
    simp only [handle_request, hw]
  · intro hw
    simp only [handle_request, hw, KvsError.display]
  · intro s2 hset
    simp only [handle_request, hset]
  · intro hb
    have hrm : KvStore.remove encSize s k = .error KvsError.KeyDoesNotExist := by
      unfold KvStore.remove
      rw [hb]
      simp
    simp only [handle_request, hrm, KvsError.display]
  · intro s2 hrm
    simp only [handle_request, hrm]

/-- Witness for C6's amended claim: a fresh store answers both a Get and a
Remove of the absent key "missing" with Error "Key not found". -/
theorem C6_dispatch_witness :
    (handle_request encOne c6store (NetworkCommand.Request (Commands.Get "missing"))).fst =
      some (NetworkCommand.Error "Key not found") ∧
    (handle_request encOne c6store (NetworkCommand.Request (Commands.Rm "missing"))).fst =
      some (NetworkCommand.Error "Key not found") :=
  ⟨(C6_dispatch encOne c6store "missing" "x").2.1 (by rfl),
   (C6_dispatch encOne c6store "missing" "x").2.2.2.1 (by rfl)⟩

/-- C7 counterexample: a first server session with engine kvs leaves the
directory c7dir; a second session requesting engine sled on that directory
starts successfully, instead of failing with WrongEngineType.  No marker
file is consulted (and KvsError has no WrongEngineType constructor at all),
so the claim fails at this input. -/
theorem C7_counterexample :
    (∃ st, serverStartup (some "kvs") [] = .ok ("kvs", st)) ∧
    (∃ st, serverStartup (some "sled") c7dir = .ok ("sled", st)) :=
  ⟨⟨_, rfl⟩, ⟨_, rfl⟩⟩

/-- C7 amended: server startup never reads or writes an engine marker; its
engine outcome is independent of the directory contents.  A missing engine
argument yields "kvs", the names "kvs" and "sled" are accepted as given, and
any other name fails with UnknownEngineType; reopening a directory with a
different backend therefore succeeds. -/
theorem C7_engine_resolution (cli : Option String) (dir dir2 : Dir) :
    (Except.map Prod.fst (serverStartup cli dir) =
      Except.map Prod.fst (serverStartup cli dir2)) ∧
    (cli = none → ∃ st, serverStartup cli dir = .ok ("kvs", st)) ∧
    (∀ e, cli = some e → (e = "kvs" ∨ e = "sled") →
      ∃ st, serverStartup cli dir = .ok (e, st)) ∧
    (∀ e, cli = some e → ¬(e = "kvs" ∨ e = "sled") →
      serverStartup cli dir = .error (KvsError.UnknownEngineType e)) := by
  refine ⟨?_, ?_, ?_, ?_⟩
  · cases cli with
    | none => rfl
    | some e =>
      simp only [serverStartup]
      by_cases h : (e = "kvs" || e = "sled") = true
      · simp [h, Except.map]
      · simp [h, Except.map]
  · intro h
    subst h
    exact ⟨_, rfl⟩
  · intro e he hor
    subst he
    simp only [serverStartup]
    have hb : (e = "kvs" || e = "sled") = true := by
      rcases hor with h | h <;> simp [h]
    simp only [hb, if_true]
    exact ⟨_, rfl⟩
  · intro e he hnot
    subst he
    simp only [serverStartup]
    push_neg at hnot
    have hb : (e = "kvs" || e = "sled") = false := by
      simp [hnot.1, hnot.2]
    simp only [hb, Bool.false_eq_true, if_false]

/-- Witness for C7's amended claim: an unknown engine name fails with
UnknownEngineType while reopening the kvs-created directory with sled
succeeds. -/
theorem C7_engine_resolution_witness :
    serverStartup (some "postgres") [] = .error (KvsError.UnknownEngineType "postgres") ∧
    (∃ st, serverStartup (some "sled") c7dir = .ok ("sled", st)) :=
  ⟨(C7_engine_resolution (some "postgres") [] []).2.2.2 "postgres" rfl (by decide),
   (C7_engine_resolution (some "sled") c7dir []).2.2.1 "sled" rfl (Or.inr rfl)⟩

theorem sortNats_pairwise (l : List Nat) : (sortNats l).Pairwise (fun a b => a ≤ b) := by
  unfold sortNats
  have h := List.sorted_insertionSort (fun a b : Nat => a ≤ b) l
  simpa [List.Sorted] using h

theorem mem_sortNats (v : Nat) (l : List Nat) : v ∈ sortNats l ↔ v ∈ l := by
  unfold sortNats
  exact (List.perm_insertionSort _ l).mem_iff

theorem stripLogRev_digits (l : List Char) (h : l.all isAsciiDigit = true) :
    stripLogRev l = l := by
  rcases l with _ | ⟨c1, _ | ⟨c2, _ | ⟨c3, _ | ⟨c4, rest⟩⟩⟩⟩
  · rfl
  · rfl
  · rfl
  · rfl
  · simp only [stripLogRev]
    rw [if_neg]
    rintro ⟨h1, -, -, -⟩
    subst h1
    simp only [List.all_cons, Bool.and_eq_true] at h
    exact absurd h.1 (by decide)

theorem extensionOf_stem_log (stem : List Char) (hne : stem ≠ []) :
    extensionOf (String.mk (stem ++ ['.', 'l', 'o', 'g'])) = some "log" := by
  have hrev : (stem ++ ['.', 'l', 'o', 'g']).reverse = 'g' :: 'o' :: 'l' :: '.' :: stem.reverse := by
    simp [List.reverse_append]
  have hfind : ('g' :: 'o' :: 'l' :: '.' :: stem.reverse).findIdx? (fun c => c = '.') =
      some 3 := rfl
  have hdata : (String.mk (stem ++ ['.', 'l', 'o', 'g'])).data = stem ++ ['.', 'l', 'o', 'g'] := rfl
  simp only [extensionOf, hdata, hrev, hfind]
  have hlen : (stem ++ ['.', 'l', 'o', 'g']).length = stem.length + 4 := by simp
  have hi : (stem ++ ['.', 'l', 'o', 'g']).length - 1 - 3 = stem.length := by
    rw [hlen]
    omega
  rw [hi]
  have hne0 : stem.length ≠ 0 := by
    intro h0
    exact hne (List.length_eq_zero.mp h0)
  rw [if_neg hne0]
  have hsplit : stem ++ ['.', 'l', 'o', 'g'] = (stem ++ ['.']) ++ ['l', 'o', 'g'] := by simp
  rw [hsplit]
  have hlen2 : stem.length + 1 = (stem ++ ['.']).length := by simp
  rw [hlen2, List.drop_left]

theorem trimEnd_stem_log (stem : List Char) (hdig : stem.all isAsciiDigit = true) :
    trimEndMatchesLog (String.mk (stem ++ ['.', 'l', 'o', 'g'])) = String.mk stem := by
  have hrev : (stem ++ ['.', 'l', 'o', 'g']).reverse = 'g' :: 'o' :: 'l' :: '.' :: stem.reverse := by
    simp [List.reverse_append]
  have hdata : (String.mk (stem ++ ['.', 'l', 'o', 'g'])).data = stem ++ ['.', 'l', 'o', 'g'] := rfl
  simp only [trimEndMatchesLog, hdata, hrev]
  have h1 : stripLogRev ('g' :: 'o' :: 'l' :: '.' :: stem.reverse) = stripLogRev stem.reverse := by
    simp [stripLogRev]
  have hdigrev : stem.reverse.all isAsciiDigit = true := by
    rw [List.all_eq_true] at hdig ⊢
    intro c hc
    exact hdig c (List.mem_reverse.mp hc)
  rw [h1, stripLogRev_digits stem.reverse hdigrev, List.reverse_reverse]

theorem parseU64_digits (stem : List Char) (hne : stem ≠ [])
    (hdig : stem.all isAsciiDigit = true) (hlt : digitsToNat stem < 2 ^ 64) :
    parseU64 (String.mk stem) = some (digitsToNat stem) := by
  have hdata : (String.mk stem).data = stem := rfl
  simp only [parseU64, hdata]
  have hhead : ¬ stem.head? = some '+' := by
    cases stem with
    | nil => simp
    | cons c rest =>
      simp only [List.head?_cons, Option.some.injEq]
      intro hc
      subst hc
      simp only [List.all_cons, Bool.and_eq_true] at hdig
      exact absurd hdig.1 (by decide)
  rw [if_neg hhead]
  have hemp : stem.isEmpty = false := by
    cases stem with
    | nil => exact absurd rfl hne
    | cons _ _ => rfl
  simp only [hemp, Bool.false_eq_true, if_false, hdig, if_true, hlt, ite_true]

/-- C8 counterexample: the file name "1.log.log" does not match the
specification regular expression (digits then a single ".log"), yet
sorted_gen_list accepts it with generation 1, because trim_end_matches
strips every trailing ".log" occurrence; so open does not consider exactly
the regex-matching names. -/
theorem C8_counterexample :
    sorted_gen_list ["1.log.log"] = [1] ∧ matchesGenRegex "1.log.log" = false :=
  ⟨rfl, rfl⟩

/-- C8 amended: sorted_gen_list returns an ascending list whose last entry
is its maximum, and open gives the new writer segment generation
max(gen)+1, or 1 when the list is empty (getLast of the empty list defaults
to 0 here).  Every file name matching the regular expression (a nonempty
digit string with one ".log" suffix) whose digit value is below 2^64 is
accepted with that value as its generation - but the converse fails: names
such as "1.log.log" or "+5.log" are also accepted (see the
counterexample), so the set of considered files strictly contains the
regex-matching ones. -/
theorem C8_gen_list (names : List String) :
    ((sorted_gen_list names).Pairwise (fun a b => a ≤ b)) ∧
    (∀ g ∈ sorted_gen_list names, g ≤ (sorted_gen_list names).getLast?.getD 0) ∧
    (openCurrentGen names = (sorted_gen_list names).getLast?.getD 0 + 1) ∧
    (∀ stem : List Char, stem ≠ [] → stem.all isAsciiDigit = true →
      matchesGenRegex (String.mk (stem ++ ['.', 'l', 'o', 'g'])) = true ∧
      (digitsToNat stem < 2 ^ 64 → String.mk (stem ++ ['.', 'l', 'o', 'g']) ∈ names →
        digitsToNat stem ∈ sorted_gen_list names)) := by
  refine ⟨?_, ?_, rfl, ?_⟩
  · exact sortNats_pairwise _
  · exact le_getLastD_of_pairwise _ (sortNats_pairwise _)
  · intro stem hne hdig
    have hdata : (String.mk (stem ++ ['.', 'l', 'o', 'g'])).data = stem ++ ['.', 'l', 'o', 'g'] := rfl
    constructor
    · simp only [matchesGenRegex, hdata]
      have hlen : (stem ++ ['.', 'l', 'o', 'g']).length = stem.length + 4 := by simp
      have hlpos : 0 < stem.length := List.length_pos.mpr hne
      have h5 : 5 ≤ (stem ++ ['.', 'l', 'o', 'g']).length := by rw [hlen]; omega
      have hsub : (stem ++ ['.', 'l', 'o', 'g']).length - 4 = stem.length := by
        rw [hlen]
        omega
      rw [hsub, List.drop_left, List.take_left]
      simp [h5, hdig]
      omega
    · intro hlt hmem
      have hf : (if extensionOf (String.mk (stem ++ ['.', 'l', 'o', 'g'])) = some "log"
          then parseU64 (trimEndMatchesLog (String.mk (stem ++ ['.', 'l', 'o', 'g'])))
          else none) = some (digitsToNat stem) := by
        rw [extensionOf_stem_log stem hne, if_pos rfl, trimEnd_stem_log stem hdig]
        exact parseU64_digits stem hne hdig hlt
      have hmem2 : digitsToNat stem ∈ names.filterMap (fun name =>
          if extensionOf name = some "log" then parseU64 (trimEndMatchesLog name) else none) :=
        List.mem_filterMap.mpr ⟨_, hmem, hf⟩
      unfold sorted_gen_list
      exact (mem_sortNats _ _).mpr hmem2

/-- Witness for C8's amended claim: "7.log" among unrelated files yields
generation 7 in the list. -/
theorem C8_gen_list_witness :
    matchesGenRegex (String.mk (['7'] ++ ['.', 'l', 'o', 'g'])) = true ∧
    digitsToNat ['7'] ∈ sorted_gen_list ["junk.txt", "7.log"] := by
  have h := (C8_gen_list ["junk.txt", "7.log"]).2.2.2 ['7'] (by decide) (by decide)
  exact ⟨h.1, h.2 (by decide) (by decide)⟩

theorem toLeBytes_length (k : Nat) : ∀ n, (toLeBytes k n).length = k := by
  induction k with
  | zero => intro n; rfl
  | succ k ih => intro n; simp [toLeBytes, ih]

theorem leBytesToNat_toLeBytes (k : Nat) : ∀ n, leBytesToNat (toLeBytes k n) = n % 256 ^ k := by
  induction k with
  | zero => intro n; simp [toLeBytes, leBytesToNat, Nat.mod_one]
  | succ k ih =>
    intro n
    simp only [toLeBytes, leBytesToNat, List.foldr_cons]
    have h2 : List.foldr (fun b acc => b + 256 * acc) 0 (toLeBytes k (n / 256)) =
        n / 256 % 256 ^ k := ih (n / 256)
    rw [h2]
    have h3 : (256 : Nat) ^ (k + 1) = 256 * 256 ^ k := by ring
    rw [h3, Nat.mod_mul]

theorem readUntilNl_no10 (l rest : List Nat) (h : ∀ b ∈ l, b ≠ 10) :
    readUntilNl (l ++ 10 :: rest) = (l ++ [10], rest) := by
  induction l with
  | nil => simp [readUntilNl]
  | cons b t ih =>
    have hb : b ≠ 10 := h b (by simp)
    simp only [List.cons_append, readUntilNl, if_neg hb, List.append_eq]
    rw [ih (fun x hx => h x (List.mem_cons_of_mem _ hx))]

theorem trimAscii_untouched (l : List Nat) (hne : l ≠ [])
    (hfirst : ∀ b, l.head? = some b → isAsciiWsByte b = false)
    (hlast : ∀ b, l.getLast? = some b → isAsciiWsByte b = false) :
    trimAsciiBytes (l ++ [10]) = l := by
  cases l with
  | nil => exact absurd rfl hne
  | cons a t =>
    have ha : isAsciiWsByte a = false := hfirst a rfl
    have hstep1 : ((a :: t) ++ [10]).dropWhile isAsciiWsByte = (a :: t) ++ [10] := by
      simp [List.dropWhile_cons, ha]
    have hstep2 : ((a :: t) ++ [10]).reverse = 10 :: (a :: t).reverse := by simp
    unfold trimAsciiBytes
    rw [hstep1, hstep2, List.dropWhile_cons]
    simp only [show isAsciiWsByte 10 = true from rfl, if_true]
    cases hrev : (a :: t).reverse with
    | nil => simp at hrev
    | cons c r2 =>
      have hc : (a :: t).getLast? = some c := by
        rw [← List.head?_reverse, hrev]
        rfl
      have hcw : isAsciiWsByte c = false := hlast c hc
      rw [List.dropWhile_cons]
      simp only [hcw, Bool.false_eq_true, if_false]
      rw [← hrev, List.reverse_reverse]

/-- C10 counterexample: a 9-byte payload satisfies the claimed precondition
(none of the 8 little-endian length bytes is 0x0A), yet
receive_network_message panics on the framing produced by
send_network_message, because the leading length byte 0x09 is ASCII
whitespace and trim_ascii strips it, leaving a 7-byte buffer that the
8-byte conversion rejects. -/
theorem C10_counterexample :
    receive_network_message (send_network_message c10payload) = .error RecvError.LengthPanic ∧
    (toLeBytes 8 c10payload.length).all (fun b => b != 10) = true :=
  ⟨rfl, by decide⟩

/-- C10 amended: receive_network_message returns exactly the payload written
by send_network_message under the strengthened precondition that none of
the 8 little-endian length bytes is 0x0A AND neither the first nor the last
of them is ASCII whitespace (0x09, 0x0A, 0x0C, 0x0D, 0x20); the no-0x0A
condition alone is necessary but not sufficient.  Payload length is below
2^64 as on a 64-bit host. -/
theorem C10_framing (payload : List Nat) (hlen : payload.length < 2 ^ 64)
    (h10 : ∀ b ∈ toLeBytes 8 payload.length, b ≠ 10)
    (hfirst : isAsciiWsByte ((toLeBytes 8 payload.length).head?.getD 0) = false)
    (hlast : isAsciiWsByte ((toLeBytes 8 payload.length).getLast?.getD 0) = false) :
    receive_network_message (send_network_message payload) = .ok payload := by
  have hfirst' : ∀ b, (toLeBytes 8 payload.length).head? = some b →
      isAsciiWsByte b = false := by
    intro b hb
    rw [hb] at hfirst
    simpa using hfirst
  have hlast' : ∀ b, (toLeBytes 8 payload.length).getLast? = some b →
      isAsciiWsByte b = false := by
    intro b hb
    rw [hb] at hlast
    simpa using hlast
  have hnel : toLeBytes 8 payload.length ≠ [] := by
    intro h0
    have hl8 := toLeBytes_length 8 payload.length
    rw [h0] at hl8
    simp at hl8
  have hread : readUntilNl (toLeBytes 8 payload.length ++ (10 :: payload)) =
      (toLeBytes 8 payload.length ++ [10], payload) := readUntilNl_no10 _ _ h10
  have htrim : trimAsciiBytes (toLeBytes 8 payload.length ++ [10]) =
      toLeBytes 8 payload.length := trimAscii_untouched _ hnel hfirst' hlast'
  have hround : leBytesToNat (toLeBytes 8 payload.length) = payload.length := by
    rw [leBytesToNat_toLeBytes]
    have h64 : (256 : Nat) ^ 8 = 2 ^ 64 := by norm_num
    rw [h64]
    exact Nat.mod_eq_of_lt hlen
  simp only [receive_network_message, send_network_message, List.append_assoc,
    List.singleton_append, hread, htrim, hround, toLeBytes_length, if_true,
    Nat.le_refl, List.take_length]

/-- Witness for C10's amended claim: the 3-byte payload round-trips through
the framing. -/
theorem C10_framing_witness :
    receive_network_message (send_network_message c10good) = .ok c10good :=
  C10_framing c10good (by decide) (by decide) (by decide) (by decide)
